import Mathlib

/-!
# Verification of the `ai_product_enricher` enrichment core

A shallow embedding, in Lean 4, of the enrichment orchestration core of the
`ai_product_enricher` repository:

* `services/cache.py`      — `CacheService` (key generation, get/set/clear, stats);
* `services/zhipu_client.py` / `services/cloudru_client.py`
                           — response parsing with regex-based repair, retry policy;
* `services/enricher.py`   — provider routing, single-product enrichment, batch
                             processing with `continue`/`stop` fail strategies;
* `models/product.py`, `models/enrichment.py` — the pydantic data model.

Python strings are modelled as Lean `String`; Python `None`/values as `Option`;
Python `dict`s produced by `json.loads` as association lists where a later
binding shadows an earlier one; raised exceptions as `Except` errors.
-/

set_option autoImplicit false

namespace Enricher

/-! ## Python string primitives

`str.strip`, `str.lower`, `str.upper` and the `\s` character class of the `re`
module, restricted to the character ranges the repository actually handles
(ASCII and Cyrillic; `str.lower`/`str.upper` are otherwise the identity here).
-/

/-- The code points, outside the contiguous `U+2000`–`U+200A` block, for which
Python `str.isspace()` holds: ASCII `\t \n \v \f \r` and space, the C1/Unicode
separators, and the wide spaces. -/
def pySpaceCodes : List Nat :=
  [0x09, 0x0a, 0x0b, 0x0c, 0x0d, 0x1c, 0x1d, 0x1e, 0x1f, 0x20,
   0x85, 0xa0, 0x1680, 0x2028, 0x2029, 0x202f, 0x205f, 0x3000]

/-- Characters for which Python `str.isspace()` is true (the set stripped by
`str.strip()` and matched by `\s` in a `str` regex). -/
def pyIsSpace (c : Char) : Bool :=
  pySpaceCodes.contains c.toNat || (0x2000 ≤ c.toNat && c.toNat ≤ 0x200a)

/-- Python `str.strip()` on a list of characters. -/
def pyStripList (cs : List Char) : List Char :=
  ((cs.dropWhile pyIsSpace).reverse.dropWhile pyIsSpace).reverse

/-- Python `str.strip()`. -/
def pyStrip (s : String) : String :=
  String.mk (pyStripList s.data)

/-- Python `str.lower()`, modelled on the ASCII and Cyrillic ranges
(`A`-`Z`, `А`-`Я`, `Ё`); other characters are left unchanged. -/
def pyLowerChar (c : Char) : Char :=
  if 'A' ≤ c && c ≤ 'Z' then Char.ofNat (c.toNat + 32)
  else if 0x410 ≤ c.val && c.val ≤ 0x42f then Char.ofNat (c.toNat + 32)
  else if c.val == 0x401 then Char.ofNat 0x451
  else c

/-- Python `str.lower()`. -/
def pyLower (s : String) : String :=
  String.mk (s.data.map pyLowerChar)

/-- Python `str.upper()`, modelled on the ASCII and Cyrillic ranges. -/
def pyUpperChar (c : Char) : Char :=
  if 'a' ≤ c && c ≤ 'z' then Char.ofNat (c.toNat - 32)
  else if 0x430 ≤ c.val && c.val ≤ 0x44f then Char.ofNat (c.toNat - 32)
  else if c.val == 0x451 then Char.ofNat 0x401
  else c

/-- Python `str.upper()`. -/
def pyUpper (s : String) : String :=
  String.mk (s.data.map pyUpperChar)

/-- Python `str.startswith` (character-wise, as Python slices by character). -/
def pyStartsWith (s pre : String) : Bool :=
  pre.data.isPrefixOf s.data

/-- Python `str.endswith`. -/
def pyEndsWith (s suf : String) : Bool :=
  suf.data.reverse.isPrefixOf s.data.reverse

/-- Python character slicing `s[n:]`. -/
def pyDropLeft (s : String) (n : Nat) : String :=
  String.mk (s.data.drop n)

/-- Python character slicing `s[:-n]`. -/
def pyDropRight (s : String) (n : Nat) : String :=
  String.mk (s.data.take (s.data.length - n))

/-- Python string truthiness: `if s:` is `True` iff `s` is non-empty. -/
def pyTruthy (s : String) : Bool :=
  !s.data.isEmpty

/-! ## JSON values

The values produced by Python's `json.loads`.  Numbers are kept as their source
lexeme: none of the verified code inspects numeric values, only structure.
Objects are association lists in source order; a later binding for the same key
shadows an earlier one, matching `dict` update semantics.
-/

/-- A parsed JSON value (the result type of `json.loads`). -/
inductive Json where
  | null : Json
  | bool : Bool → Json
  | num : String → Json
  | str : String → Json
  | arr : List Json → Json
  | obj : List (String × Json) → Json

/-- Python `dict.get` on an association list: the value of the last binding of
`k` (`dict` construction lets a later duplicate key overwrite an earlier one). -/
def pyDictGet (kvs : List (String × Json)) (k : String) : Option Json :=
  (kvs.reverse.find? (fun kv => kv.1 == k)).map (·.2)

/-- Membership of a key in a Python dict built from `kvs`. -/
def pyDictHas (kvs : List (String × Json)) (k : String) : Bool :=
  kvs.any (fun kv => kv.1 == k)

/-! ## `json.loads`

A recursive-descent parser for the grammar accepted by Python's `json.loads`
with its default arguments: the four JSON whitespace characters, `null`,
`true`, `false`, the extensions `NaN`, `Infinity` and `-Infinity`, numbers,
strings with the standard escapes and `\uXXXX` (a surrogate pair combines;
a lone surrogate, which Python would keep and Lean strings cannot hold, maps
through `Char.ofNat` to `U+0000`), arrays and objects.  Control characters
below `U+0020` are rejected inside strings (`strict=True`).  After the
top-level value only whitespace may remain (`Extra data`).  A
`json.JSONDecodeError` is `Except.error ()`.  Recursion is by fuel; callers
supply `length + 1` which always suffices since every step consumes input.
-/

/-- JSON whitespace skipped by `json.loads` (`[ \t\n\r]`, code points
`0x20 0x09 0x0a 0x0d` — narrower than Python's `str.isspace`). -/
def jsonWs (c : Char) : Bool :=
  [0x20, 0x09, 0x0a, 0x0d].contains c.toNat

/-- ASCII digit (code points 48–57). -/
def isDigit (c : Char) : Bool :=
  48 ≤ c.toNat && c.toNat ≤ 57

/-- The numeric value of one hexadecimal digit, by code point: `0`–`9` are
48–57, `a`–`f` are 97–102, `A`–`F` are 65–70. -/
def hexVal (c : Char) : Option Nat :=
  let n := c.toNat
  if 48 ≤ n && n ≤ 57 then some (n - 48)
  else if 97 ≤ n && n ≤ 102 then some (n - 87)
  else if 65 ≤ n && n ≤ 70 then some (n - 55)
  else none

/-- Parse exactly four hex digits into a code unit. -/
def parseHex4 : List Char → Option (Nat × List Char)
  | h1 :: h2 :: h3 :: h4 :: rest => do
    let u ← (hexVal h1).bind fun a =>
      (hexVal h2).bind fun b =>
        (hexVal h3).bind fun c =>
          (hexVal h4).map fun d => 16 * (16 * (16 * a + b) + c) + d
    some (u, rest)
  | _ => none

/-- Parse the body of a JSON string (after the opening quote) up to and
including the closing quote, decoding escapes as `json.loads` does. -/
def jsonStringBody (fuel : Nat) (cs : List Char) : Except Unit (List Char × List Char) :=
  match fuel, cs with
  | 0, _ => .error ()
  | _, [] => .error ()
  | fuel + 1, c :: rest =>
    if c == '"' then .ok ([], rest)
    else if c == '\\' then
      match rest with
      | [] => .error ()
      | e :: rest' =>
        let decoded : Except Unit (Char × List Char) :=
          if e == '"' then .ok ('"', rest')
          else if e == '\\' then .ok ('\\', rest')
          else if e == '/' then .ok ('/', rest')
          else if e == 'b' then .ok (Char.ofNat 8, rest')
          else if e == 'f' then .ok (Char.ofNat 12, rest')
          else if e == 'n' then .ok ('\n', rest')
          else if e == 'r' then .ok ('\r', rest')
          else if e == 't' then .ok ('\t', rest')
          else if e == 'u' then
            match parseHex4 rest' with
            | none => .error ()
            | some (u, rest'') =>
              if 0xd800 ≤ u && u ≤ 0xdbff then
                -- a high surrogate: try to combine with a following \uXXXX
                match rest'' with
                | '\\' :: 'u' :: tail =>
                  match parseHex4 tail with
                  | some (u2, tail') =>
                    if 0xdc00 ≤ u2 && u2 ≤ 0xdfff then
                      .ok (Char.ofNat (0x10000 + (u - 0xd800) * 0x400 + (u2 - 0xdc00)), tail')
                    else .ok (Char.ofNat u, rest'')
                  | none => .ok (Char.ofNat u, rest'')
                | _ => .ok (Char.ofNat u, rest'')
              else .ok (Char.ofNat u, rest'')
          else .error ()
        match decoded with
        | .error _ => .error ()
        | .ok (d, rest'') =>
          match jsonStringBody fuel rest'' with
          | .error _ => .error ()
          | .ok (body, after) => .ok (d :: body, after)
    else if c.val < 0x20 then .error ()  -- strict mode rejects raw control chars
    else
      match jsonStringBody fuel rest with
      | .error _ => .error ()
      | .ok (body, after) => .ok (c :: body, after)

/-- Parse a JSON number starting at `cs` (first char a digit or `-`),
returning its lexeme.  Grammar: `-? (0 | [1-9][0-9]*) (\.[0-9]+)? ([eE][+-]?[0-9]+)?`. -/
def jsonNumber (cs : List Char) : Except Unit (List Char × List Char) :=
  let (sign, cs₁) :=
    match cs with
    | '-' :: rest => (['-'], rest)
    | _ => ([], cs)
  match cs₁ with
  | [] => .error ()
  | c :: _ =>
    if !isDigit c then .error ()
    else
      let intPart := cs₁.takeWhile isDigit
      let cs₂ := cs₁.dropWhile isDigit
      -- `json` forbids leading zeros: `0` only stands alone
      if intPart.length > 1 && intPart.headD '0' == '0' then .error ()
      else
        let (fracPart, cs₃) :=
          match cs₂ with
          | '.' :: rest =>
            let ds := rest.takeWhile isDigit
            if ds.isEmpty then ([], cs₂) else ('.' :: ds, rest.dropWhile isDigit)
          | _ => ([], cs₂)
        if fracPart.isEmpty && (match cs₂ with | '.' :: _ => true | _ => false) then .error ()
        else
          let (expPart, cs₄) :=
            match cs₃ with
            | e :: rest =>
              if e == 'e' || e == 'E' then
                let (sgn, rest') :=
                  match rest with
                  | s :: r => if s == '+' || s == '-' then ([s], r) else ([], rest)
                  | [] => ([], rest)
                let ds := rest'.takeWhile isDigit
                if ds.isEmpty then ([], cs₃)
                else (e :: (sgn ++ ds), rest'.dropWhile isDigit)
              else ([], cs₃)
            | [] => ([], cs₃)
          if expPart.isEmpty && (match cs₃ with
              | e :: _ => e == 'e' || e == 'E'
              | [] => false) then .error ()
          else .ok (sign ++ intPart ++ fracPart ++ expPart, cs₄)

mutual

/-- Parse one JSON value at the head of `cs` (no leading whitespace). -/
def jsonValue (fuel : Nat) (cs : List Char) : Except Unit (Json × List Char) :=
  match fuel with
  | 0 => .error ()
  | fuel + 1 =>
    match cs with
    | [] => .error ()
    | c :: rest =>
      if c == '"' then
        match jsonStringBody (rest.length + 1) rest with
        | .error _ => .error ()
        | .ok (body, after) => .ok (.str (String.mk body), after)
      else if c == '\x7b' then
        jsonObject fuel (rest.dropWhile jsonWs)
      else if c == '[' then
        jsonArray fuel (rest.dropWhile jsonWs)
      else
        match cs with
        | 'n' :: 'u' :: 'l' :: 'l' :: rest' => .ok (.null, rest')
        | 't' :: 'r' :: 'u' :: 'e' :: rest' => .ok (.bool true, rest')
        | 'f' :: 'a' :: 'l' :: 's' :: 'e' :: rest' => .ok (.bool false, rest')
        | 'N' :: 'a' :: 'N' :: rest' => .ok (.num "NaN", rest')
        | 'I' :: 'n' :: 'f' :: 'i' :: 'n' :: 'i' :: 't' :: 'y' :: rest' =>
          .ok (.num "Infinity", rest')
        | '-' :: 'I' :: 'n' :: 'f' :: 'i' :: 'n' :: 'i' :: 't' :: 'y' :: rest' =>
          .ok (.num "-Infinity", rest')
        | _ =>
          match jsonNumber cs with
          | .error _ => .error ()
          | .ok (lexeme, rest') => .ok (.num (String.mk lexeme), rest')

/-- Parse the members of an object after `{` and leading whitespace. -/
def jsonObject (fuel : Nat) (cs : List Char) : Except Unit (Json × List Char) :=
  match fuel with
  | 0 => .error ()
  | fuel + 1 =>
    match cs with
    | '\x7d' :: rest => .ok (.obj [], rest)
    | _ => jsonMembers fuel cs []

/-- Parse `string : value (, string : value)* }`, accumulating pairs. -/
def jsonMembers (fuel : Nat) (cs : List Char) (acc : List (String × Json)) :
    Except Unit (Json × List Char) :=
  match fuel with
  | 0 => .error ()
  | fuel + 1 =>
    match cs with
    | '"' :: rest =>
      match jsonStringBody (rest.length + 1) rest with
      | .error _ => .error ()
      | .ok (keyChars, afterKey) =>
        match afterKey.dropWhile jsonWs with
        | ':' :: afterColon =>
          match jsonValue fuel (afterColon.dropWhile jsonWs) with
          | .error _ => .error ()
          | .ok (v, afterVal) =>
            let acc' := acc ++ [(String.mk keyChars, v)]
            match afterVal.dropWhile jsonWs with
            | '\x7d' :: rest' => .ok (.obj acc', rest')
            | ',' :: rest' => jsonMembers fuel (rest'.dropWhile jsonWs) acc'
            | _ => .error ()
        | _ => .error ()
    | _ => .error ()

/-- Parse the elements of an array after `[` and leading whitespace. -/
def jsonArray (fuel : Nat) (cs : List Char) : Except Unit (Json × List Char) :=
  match fuel with
  | 0 => .error ()
  | fuel + 1 =>
    match cs with
    | ']' :: rest => .ok (.arr [], rest)
    | _ => jsonElements fuel cs []

/-- Parse `value (, value)* ]`, accumulating elements. -/
def jsonElements (fuel : Nat) (cs : List Char) (acc : List Json) :
    Except Unit (Json × List Char) :=
  match fuel with
  | 0 => .error ()
  | fuel + 1 =>
    match jsonValue fuel cs with
    | .error _ => .error ()
    | .ok (v, afterVal) =>
      let acc' := acc ++ [v]
      match afterVal.dropWhile jsonWs with
      | ']' :: rest' => .ok (.arr acc', rest')
      | ',' :: rest' => jsonElements fuel (rest'.dropWhile jsonWs) acc'
      | _ => .error ()

end

/-- Python `json.loads`: parse one value, allowing only whitespace around it. -/
def jsonLoads (s : String) : Except Unit Json :=
  let cs := s.data.dropWhile jsonWs
  match jsonValue (cs.length + 1) cs with
  | .error _ => .error ()
  | .ok (v, rest) =>
    if (rest.dropWhile jsonWs).isEmpty then .ok v else .error ()

/-! ## Data model (`models/enrichment.py`) -/

/-- The default `fields` list of `EnrichmentOptions` (also the default used by
`CacheService.get`/`set`/`invalidate` when `fields is None`). -/
def defaultEnrichFields : List String :=
  ["manufacturer", "trademark", "category", "model_name",
   "description", "features", "specifications", "seo_keywords"]

/-- `EnrichmentOptions` from `models/enrichment.py`, with its pydantic defaults. -/
structure EnrichmentOptions where
  include_web_search : Bool := true
  language : String := "ru"
  fields : List String := defaultEnrichFields
  search_recency : String := "month"
  max_features : Nat := 10
  max_keywords : Nat := 15

/-- `Source` from `models/enrichment.py`. -/
structure Source where
  title : String
  url : String
  date : Option String := none

/-- `EnrichedProduct` from `models/enrichment.py`.  `specifications` holds
arbitrary JSON values (`dict[str, Any]`). -/
structure EnrichedProduct where
  manufacturer : Option String := none
  trademark : Option String := none
  category : Option String := none
  model_name : Option String := none
  description : Option String := none
  features : List String := []
  specifications : List (String × Json) := []
  seo_keywords : List String := []
  marketing_copy : Option String := none
  pros : List String := []
  cons : List String := []

/-! ## Response parsing and repair
(`ZhipuAIClient._parse_response` / `CloudruClient._parse_response` and
`_extract_fields_manually`; the two providers' code is identical) -/

/-- Markdown-fence stripping: the cleaning steps of `_parse_response` before
the first `json.loads` (`strip`, drop a leading ```` ```json ````/```` ``` ````,
drop a trailing ```` ``` ````, `strip` again). -/
def stripFences (content : String) : String :=
  let cleaned := pyStrip content
  let cleaned :=
    if pyStartsWith cleaned "```json" then pyDropLeft cleaned 7
    else if pyStartsWith cleaned "```" then pyDropLeft cleaned 3
    else cleaned
  let cleaned := if pyEndsWith cleaned "```" then pyDropRight cleaned 3 else cleaned
  pyStrip cleaned

/-- `re.search(r"\{[\s\S]*\}", content)`: greedy, so it matches from the first
`{` to the last `}` of the string, and matches at all iff some `}` occurs
strictly after the first `{`. -/
def searchBraceSpan (s : String) : Option String :=
  let cs := s.data
  match cs.findIdx? (· == '\x7b'), (cs.reverse.findIdx? (· == '\x7d')) with
  | some i, some jr =>
    let j := cs.length - 1 - jr
    if i < j then some (String.mk ((cs.drop i).take (j - i + 1))) else none
  | _, _ => none

/-- Python `str.replace('\\"', '"')`: rewrite every backslash-quote pair,
left to right, non-overlapping. -/
def pyReplaceEscQuote : List Char → List Char
  | '\\' :: '"' :: rest => '"' :: pyReplaceEscQuote rest
  | c :: rest => c :: pyReplaceEscQuote rest
  | [] => []

/-- Take characters up to the next `"`; `none` when no `"` remains.
This is the exact semantics of the group of `"([^"]*(?:\\.[^"]*)*)"` from a
given opening quote: since `[^"]*` also matches a backslash, backtracking
into `\\.` can only occur at end of input where no closing quote exists, so
the group always ends at the very next quote. -/
def takeUntilQuote : List Char → Option (List Char × List Char)
  | [] => none
  | '"' :: rest => some ([], rest)
  | c :: rest =>
    match takeUntilQuote rest with
    | some (g, r) => some (c :: g, r)
    | none => none

/-- Take characters up to the next `]` (the lazy `(.*?)\]` with `re.DOTALL`). -/
def takeUntilRBracket : List Char → Option (List Char × List Char)
  | [] => none
  | ']' :: rest => some ([], rest)
  | c :: rest =>
    match takeUntilRBracket rest with
    | some (g, r) => some (c :: g, r)
    | none => none

/-- Take characters up to the next `}` (the group of `\{([^}]*)\}`). -/
def takeUntilRBrace : List Char → Option (List Char × List Char)
  | [] => none
  | '\x7d' :: rest => some ([], rest)
  | c :: rest =>
    match takeUntilRBrace rest with
    | some (g, r) => some (c :: g, r)
    | none => none

/-- Drop a literal prefix. -/
def matchLiteral : List Char → List Char → Option (List Char)
  | [], cs => some cs
  | l :: ls, c :: cs => if c == l then matchLiteral ls cs else none
  | _ :: _, [] => none

/-- Leftmost `re.search`: try the pattern matcher `f` at every start
position, left to right. -/
def reSearch {α : Type} (f : List Char → Option α) : List Char → Option α
  | [] => f []
  | c :: rest =>
    match f (c :: rest) with
    | some a => some a
    | none => reSearch f (c :: rest).tail

/-- Match `"<field>"\s*:\s*"<group>"` at the head of `cs`, returning the raw
group characters (see `takeUntilQuote` for the group semantics). -/
def matchStringFieldAt (field : String) (cs : List Char) : Option (List Char) := do
  let r₁ ← matchLiteral ('"' :: field.data ++ ['"']) cs
  let r₂ := r₁.dropWhile pyIsSpace
  let r₃ ← match r₂ with | ':' :: r => some r | _ => none
  let r₄ := r₃.dropWhile pyIsSpace
  let r₅ ← match r₄ with | '"' :: r => some r | _ => none
  let (g, _) ← takeUntilQuote r₅
  return g

/-- The helper `extract_string_field` of `_extract_fields_manually`:
`re.search(rf'"{field}"\s*:\s*"([^"]*(?:\\.[^"]*)*)"', content)` followed by
`.replace('\\"', '"')`. -/
def extractStringField (content : String) (field : String) : Option String :=
  (reSearch (matchStringFieldAt field) content.data).map
    (fun g => String.mk (pyReplaceEscQuote g))

/-- Match `"<field>"\s*:\s*\[(.*?)\]` at the head of `cs` (group up to the
first `]`, per the lazy quantifier). -/
def matchArrayFieldAt (field : String) (cs : List Char) : Option (List Char) := do
  let r₁ ← matchLiteral ('"' :: field.data ++ ['"']) cs
  let r₂ := r₁.dropWhile pyIsSpace
  let r₃ ← match r₂ with | ':' :: r => some r | _ => none
  let r₄ := r₃.dropWhile pyIsSpace
  let r₅ ← match r₄ with | '[' :: r => some r | _ => none
  let (g, _) ← takeUntilRBracket r₅
  return g

/-- `re.findall(r'"([^"]*(?:\\.[^"]*)*)"', s)` with the `\\"` replacement
applied to each match: successive quote-delimited spans, scanned left to
right, each group ending at the very next quote. -/
def findallQuoted (fuel : Nat) (cs : List Char) : List String :=
  match fuel, cs with
  | 0, _ => []
  | _, [] => []
  | fuel + 1, '"' :: rest =>
    match takeUntilQuote rest with
    | some (g, after) => String.mk (pyReplaceEscQuote g) :: findallQuoted fuel after
    | none => []
  | fuel + 1, _ :: rest => findallQuoted fuel rest

/-- Match `"specifications"\s*:\s*\{([^}]*)\}` at the head of `cs`. -/
def matchSpecsAt (cs : List Char) : Option (List Char) := do
  let r₁ ← matchLiteral ('"' :: "specifications".data ++ ['"']) cs
  let r₂ := r₁.dropWhile pyIsSpace
  let r₃ ← match r₂ with | ':' :: r => some r | _ => none
  let r₄ := r₃.dropWhile pyIsSpace
  let r₅ ← match r₄ with | '\x7b' :: r => some r | _ => none
  let (g, _) ← takeUntilRBrace r₅
  return g

/-- Match one `"key"\s*:\s*"value"` pair (`"([^"]+)"\s*:\s*"([^"]*)"`: the key
group is non-empty, no escape handling) at the head of `cs`; returns the key,
the value and the remaining input after the value's closing quote. -/
def matchSpecPairAt (cs : List Char) : Option (String × String × List Char) := do
  let r₁ ← match cs with | '"' :: r => some r | _ => none
  let (k, r₂) ← takeUntilQuote r₁
  if k.isEmpty then none else
  let r₃ := r₂.dropWhile pyIsSpace
  let r₄ ← match r₃ with | ':' :: r => some r | _ => none
  let r₅ := r₄.dropWhile pyIsSpace
  let r₆ ← match r₅ with | '"' :: r => some r | _ => none
  let (v, r₇) ← takeUntilQuote r₆
  return (String.mk k, String.mk v, r₇)

/-- `re.finditer(r'"([^"]+)"\s*:\s*"([^"]*)"', s)`: non-overlapping leftmost
matches, each search resuming after the previous match. -/
def finditerSpecPairs (fuel : Nat) (cs : List Char) : List (String × String) :=
  match fuel, cs with
  | 0, _ => []
  | _, [] => []
  | fuel + 1, c :: rest =>
    match matchSpecPairAt (c :: rest) with
    | some (k, v, after) => (k, v) :: finditerSpecPairs fuel after
    | none => finditerSpecPairs fuel rest

/-- `_extract_fields_manually`: per-requested-field regex recovery from an
unparseable completion.  String fields are stored only when the recovered
value is a non-empty string (`if val:`); `features` / `specifications` /
`seo_keywords` are stored whenever their bracket/brace span matches, even if
empty.  `pros`, `cons` and `marketing_copy` are never recovered. -/
def extractFieldsManually (content : String) (options : EnrichmentOptions) :
    List (String × Json) :=
  let csLen := content.data.length + 1
  let stringField (d : List (String × Json)) (name : String) : List (String × Json) :=
    if options.fields.contains name then
      match extractStringField content name with
      | some v => if v ≠ "" then d ++ [(name, Json.str v)] else d
      | none => d
    else d
  let d : List (String × Json) := []
  let d := stringField d "manufacturer"
  let d := stringField d "trademark"
  let d := stringField d "category"
  let d := stringField d "model_name"
  let d := stringField d "description"
  let d :=
    if options.fields.contains "features" then
      match reSearch (matchArrayFieldAt "features") content.data with
      | some g => d ++ [("features", Json.arr ((findallQuoted csLen g).map Json.str))]
      | none => d
    else d
  let d :=
    if options.fields.contains "specifications" then
      match reSearch matchSpecsAt content.data with
      | some g =>
        d ++ [("specifications",
               Json.obj ((finditerSpecPairs csLen g).map (fun kv => (kv.1, Json.str kv.2))))]
      | none => d
    else d
  let d :=
    if options.fields.contains "seo_keywords" then
      match reSearch (matchArrayFieldAt "seo_keywords") content.data with
      | some g => d ++ [("seo_keywords", Json.arr ((findallQuoted csLen g).map Json.str))]
      | none => d
    else d
  d

/-- The `data` dictionary computed by `_parse_response` before the
`EnrichedProduct` construction: strict parse of the fence-stripped text, then
the `\{[\s\S]*\}` span, then manual extraction; `{}` when no span exists.
`Except.error` models the uncaught `AttributeError` raised by `data.get` when
the strict parse succeeds with a non-object value. -/
def parseData (content : String) (options : EnrichmentOptions) :
    Except Unit (List (String × Json)) :=
  match jsonLoads (stripFences content) with
  | .ok (Json.obj kvs) => .ok kvs
  | .ok _ => .error ()
  | .error _ =>
    match searchBraceSpan content with
    | some span =>
      match jsonLoads span with
      | .ok (Json.obj kvs) => .ok kvs
      | .ok _ => .error ()
      | .error _ => .ok (extractFieldsManually content options)
    | none => .ok []

/-- pydantic validation of a `str | None` field: the requested-field gate and
`data.get(name)`; a present non-string, non-null value fails validation. -/
def scalarField (data : List (String × Json)) (fields : List String) (name : String) :
    Except Unit (Option String) :=
  if fields.contains name then
    match pyDictGet data name with
    | none => .ok none
    | some .null => .ok none
    | some (.str s) => .ok (some s)
    | some _ => .error ()
  else .ok none

/-- Coerce a JSON array of strings to `list[str]`; any other shape fails. -/
def jsonToStrList : List Json → Option (List String)
  | [] => some []
  | .str s :: rest => (jsonToStrList rest).map (s :: ·)
  | _ :: _ => none

/-- pydantic validation of a `list[str]` field: `data.get(name, [])` under the
requested-field gate. -/
def arrayField (data : List (String × Json)) (fields : List String) (name : String) :
    Except Unit (List String) :=
  if fields.contains name then
    match pyDictGet data name with
    | none => .ok []
    | some (.arr xs) =>
      match jsonToStrList xs with
      | some ss => .ok ss
      | none => .error ()
    | some _ => .error ()
  else .ok []

/-- pydantic validation of the `dict[str, Any]` field `specifications`:
`data.get("specifications", {})` under the requested-field gate. -/
def objField (data : List (String × Json)) (fields : List String) (name : String) :
    Except Unit (List (String × Json)) :=
  if fields.contains name then
    match pyDictGet data name with
    | none => .ok []
    | some (.obj kvs) => .ok kvs
    | some _ => .error ()
  else .ok []

/-- The `EnrichedProduct(...)` construction at the end of `_parse_response`:
each attribute is `data.get(...)` when its field is requested and the empty
default otherwise; `Except.error` models a pydantic `ValidationError`. -/
def buildEnriched (data : List (String × Json)) (fields : List String) :
    Except Unit EnrichedProduct := do
  let manufacturer ← scalarField data fields "manufacturer"
  let trademark ← scalarField data fields "trademark"
  let category ← scalarField data fields "category"
  let model_name ← scalarField data fields "model_name"
  let description ← scalarField data fields "description"
  let features ← arrayField data fields "features"
  let specifications ← objField data fields "specifications"
  let seo_keywords ← arrayField data fields "seo_keywords"
  let marketing_copy ← scalarField data fields "marketing_copy"
  let pros ← arrayField data fields "pros"
  let cons ← arrayField data fields "cons"
  return { manufacturer, trademark, category, model_name, description, features,
           specifications, seo_keywords, marketing_copy, pros, cons }

/-- `_parse_response` (identical in both provider clients): compute the `data`
dictionary, build the projected `EnrichedProduct`; `sources` is always `[]`. -/
def parseResponse (content : String) (options : EnrichmentOptions) :
    Except Unit (EnrichedProduct × List Source) := do
  let data ← parseData content options
  let enriched ← buildEnriched data options.fields
  return (enriched, [])

/-! ## The product record of the enrichment core

`ProductEnricherService.enrich_product` reads `product.name` and
`product.country_origin`; the web UI and the unit tests construct
`ProductInput(name=..., country_origin=...)`. -/

/-- Modelled from the spec: the product value consumed by the enrichment core
(`name` required, optional `description`, optional 2–3 letter
`country_origin`).  The pydantic `ProductInput` class in the `src/` snapshot
(`models/product.py`) does not define `country_origin`, although the
enricher, the web UI and the unit tests all construct and read it; see
`validProductInput` for that snapshot class. -/
structure EnricherProduct where
  name : String
  description : Option String := none
  country_origin : Option String := none

/-- `EnrichmentMetadata` from `models/enrichment.py` (timestamps are opaque
ticks). -/
structure EnrichmentMetadata where
  model_used : String
  llm_provider : String := "zhipuai"
  tokens_used : Nat
  processing_time_ms : Nat
  web_search_used : Bool
  cached : Bool := false
  timestamp : Nat := 0

/-- `EnrichmentResult` from `models/enrichment.py`. -/
structure EnrichmentResult where
  product : EnricherProduct
  enriched : EnrichedProduct
  sources : List Source := []
  metadata : EnrichmentMetadata

/-! ## Result cache (`services/cache.py`) -/

/-- Python `sorted` on a list of strings (lexicographic by code point;
Lean's `≤` on `String` is the same order). -/
def sortStrings (l : List String) : List String :=
  l.insertionSort (· ≤ ·)

/-- The data hashed by `CacheService._generate_key`.  The source builds a
`sort_keys` JSON serialization of exactly these four components and returns
its MD5 hex digest; since distinct key data serialize to distinct canonical
strings, the hash is modelled by the key data itself (MD5 on distinct inputs
is treated as injective). -/
structure CacheKey where
  name : String
  language : String
  fields : List String
  web_search : Bool
deriving DecidableEq

/-- `CacheService._generate_key`: lowercase then strip the product name, sort
the field list. -/
def generateKey (product_name language : String) (fields : List String)
    (web_search : Bool) : CacheKey :=
  { name := pyStrip (pyLower product_name)
    language := language
    fields := sortStrings fields
    web_search := web_search }

/-- The mutable state of a `CacheService`.  The `cachetools.TTLCache` store is
modelled as an association list of entries; its TTL expiry and LRU eviction
are not exercised by the verified claims (no time passes between the modelled
operations and no claim fills the cache to `max_size`).  Stored values are
`result.model_dump()` snapshots; `model_validate` of a dump is the identity
here, so entries hold the result directly. -/
structure CacheState where
  ttl_seconds : Nat
  max_size : Nat
  entries : List (CacheKey × EnrichmentResult) := []
  hits : Nat := 0
  misses : Nat := 0

/-- `dict`-style store update (`self._cache[key] = value`): bind `key` to
`value`, dropping any previous binding.  The new binding is kept in front;
no modelled operation observes entry order, only lookup and count, and both
agree with mapping semantics. -/
def storePut (entries : List (CacheKey × EnrichmentResult)) (key : CacheKey)
    (value : EnrichmentResult) : List (CacheKey × EnrichmentResult) :=
  (key, value) :: entries.filter (fun e => !(e.1 == key))

/-- `CacheService.get`: on a hit, return the revalidated copy with
`metadata.cached` forced `True` (the stored entry is not mutated) and count a
hit; on a miss count a miss.  `fields = none` models the `fields is None`
default, replaced by the eight default field names. -/
def cacheGet (st : CacheState) (product_name : String) (language : String := "ru")
    (fields : Option (List String) := none) (web_search : Bool := true) :
    Option EnrichmentResult × CacheState :=
  let fields := fields.getD defaultEnrichFields
  let key := generateKey product_name language fields web_search
  match (st.entries.find? (fun e => e.1 == key)).map (·.2) with
  | some stored =>
    (some { stored with metadata := { stored.metadata with cached := true } },
     { st with hits := st.hits + 1 })
  | none => (none, { st with misses := st.misses + 1 })

/-- `CacheService.set`: key the entry by `result.product.name` and the call
parameters, store a snapshot of the result. -/
def cacheSet (st : CacheState) (result : EnrichmentResult) (language : String := "ru")
    (fields : Option (List String) := none) (web_search : Bool := true) : CacheState :=
  let fields := fields.getD defaultEnrichFields
  let key := generateKey result.product.name language fields web_search
  { st with entries := storePut st.entries key result }

/-- `CacheService.invalidate`: remove one entry if present. -/
def cacheInvalidate (st : CacheState) (product_name : String)
    (language : String := "ru") (fields : Option (List String) := none)
    (web_search : Bool := true) : Bool × CacheState :=
  let fields := fields.getD defaultEnrichFields
  let key := generateKey product_name language fields web_search
  if st.entries.any (fun e => e.1 == key) then
    (true, { st with entries := st.entries.filter (fun e => !(e.1 == key)) })
  else (false, st)

/-- `CacheService.clear`: remove every entry, return the number removed.
The hit and miss counters are untouched. -/
def cacheClear (st : CacheState) : Nat × CacheState :=
  (st.entries.length, { st with entries := [] })

/-- The dictionary returned by `CacheService.get_stats`. -/
structure CacheStats where
  size : Nat
  max_size : Nat
  ttl_seconds : Nat
  hits : Nat
  misses : Nat
  hit_rate_percent : Rat
deriving DecidableEq

/-- `round(x, 2)` on an exact rational (Python rounds the float half-to-even;
on the exact rational this is half-up rounding — the two agree away from
exact `.xx5` boundaries, which no verified claim crosses). -/
def roundTo2 (q : Rat) : Rat :=
  (round (q * 100) : Int) / 100

/-- `CacheService.get_stats`: hit rate is `hits/(hits+misses)*100` rounded to
two decimals, `0.0` when no request was recorded. -/
def getStats (st : CacheState) : CacheStats :=
  let total := st.hits + st.misses
  { size := st.entries.length
    max_size := st.max_size
    ttl_seconds := st.ttl_seconds
    hits := st.hits
    misses := st.misses
    hit_rate_percent :=
      if total > 0 then roundTo2 ((st.hits : Rat) / (total : Rat) * 100) else 0 }

/-! ## Provider clients: identity, configuration, retry
(`services/zhipu_client.py`, `services/cloudru_client.py`) -/

/-- The two LLM providers.  `CloudruClient.provider_name` is the constant
`"cloudru"`. -/
inductive ProviderChoice where
  | zhipuai : ProviderChoice
  | cloudru : ProviderChoice
deriving DecidableEq

/-- Exception classes relevant to the retry filter of the `@retry` decorator
on both clients' `enrich_product`. -/
inductive PyExc where
  | timeoutError : PyExc
  | connectionError : PyExc
  | apiError : PyExc
  | otherError : PyExc
deriving DecidableEq

/-- `retry_if_exception_type((TimeoutError, ConnectionError))`. -/
def isRetryableExc : PyExc → Bool
  | .timeoutError => true
  | .connectionError => true
  | _ => false

/-- `wait_exponential(multiplier=1, min=2, max=10)`: the sleep in seconds
before retrying after the k-th failed attempt (k ≥ 1), clamped to [2, 10]. -/
def waitExponential (k : Nat) : Nat :=
  max 2 (min 10 (2 ^ k))

/-- The outcome of one `self._client.chat.completions.create(...)` call. -/
inductive CreateOutcome where
  | ok (content : String) (total_tokens : Nat) : CreateOutcome
  | raise (e : PyExc) : CreateOutcome

/-- One attempt of the decorated coroutine body of
`ZhipuAIClient.enrich_product` / `CloudruClient.enrich_product`: the entire
body sits in `try ... except Exception as e: raise <Provider>APIError(...)`,
so every exception raised inside — including a `TimeoutError` or
`ConnectionError` from the transport call, and a pydantic `ValidationError`
from parsing — leaves the body as the provider's API error. -/
def enrichAttempt (create : CreateOutcome) (options : EnrichmentOptions) :
    Except PyExc (EnrichedProduct × List Source × Nat) :=
  match create with
  | .raise _ => .error .apiError
  | .ok content tokens =>
    match parseResponse content options with
    | .error _ => .error .apiError
    | .ok (enriched, sources) => .ok (enriched, sources, tokens)

/-- The tenacity retry loop with `stop_after_attempt maxAttempts`: run
attempt `k`; re-raise unless the exception satisfies the retry filter and
more attempts remain.  Returns the number of attempts made. -/
def tenacityGo {α : Type} (retryIf : PyExc → Bool) (body : Nat → Except PyExc α)
    (maxAttempts k : Nat) : Nat → Nat × Except PyExc α
  | 0 => (k, body k)
  | fuel + 1 =>
    match body k with
    | .ok a => (k, .ok a)
    | .error e =>
      if retryIf e && k < maxAttempts then
        tenacityGo retryIf body maxAttempts (k + 1) fuel
      else (k, .error e)

/-- Run a tenacity-decorated body: attempts are numbered from 1. -/
def tenacityRun {α : Type} (retryIf : PyExc → Bool) (maxAttempts : Nat)
    (body : Nat → Except PyExc α) : Nat × Except PyExc α :=
  tenacityGo retryIf body maxAttempts 1 maxAttempts

/-- A provider client's `enrich_product` under its `@retry` decorator
(`retry_if_exception_type((TimeoutError, ConnectionError))`,
`stop_after_attempt(3)`, `wait_exponential(multiplier=1, min=2, max=10)`),
for a transport whose k-th call resolves to `creates k`.  The first component
is the number of times the underlying chat-completion call ran (each attempt
runs it exactly once, as the first statement of the `try` block that can
raise). -/
def enrichWithRetry (creates : Nat → CreateOutcome) (options : EnrichmentOptions) :
    Nat × Except PyExc (EnrichedProduct × List Source × Nat) :=
  tenacityRun isRetryableExc 3 (fun k => enrichAttempt (creates k) options)

/-! ## Enrichment orchestrator (`services/enricher.py`) -/

/-- `RUSSIAN_COUNTRY_CODES = {"RU", "RUS"}`. -/
def RUSSIAN_COUNTRY_CODES : List String := ["RU", "RUS"]

/-- A `ProductEnricherService` instance, abstracting each injected client by
its observable behaviour: identity strings, configuration flag, and the
resolution of one awaited `enrich_product` call (success tuple or raised
exception message). -/
structure EnricherService where
  /-- `ZhipuAIClient`'s provider tag as read by the orchestrator
  (`"zhipuai"`; the property itself lives outside the snapshot's
  `zhipu_client.py`, which is why it is carried as data here — no verified
  claim depends on its value). -/
  zhipuProviderName : String := "zhipuai"
  zhipuModel : String
  cloudruModel : String
  /-- `CloudruClient.is_configured`. -/
  cloudruConfigured : Bool
  zhipuCall : Except String (EnrichedProduct × List Source × Nat × Nat)
  cloudruCall : Except String (EnrichedProduct × List Source × Nat × Nat)
  cache : CacheState

/-- The `provider_name` the orchestrator reads from the selected client. -/
def providerNameOf (svc : EnricherService) : ProviderChoice → String
  | .zhipuai => svc.zhipuProviderName
  | .cloudru => "cloudru"

/-- The `model_name` the orchestrator reads from the selected client. -/
def modelNameOf (svc : EnricherService) : ProviderChoice → String
  | .zhipuai => svc.zhipuModel
  | .cloudru => svc.cloudruModel

/-- The resolution of `await client.enrich_product(product, options)`. -/
def clientCallOf (svc : EnricherService) :
    ProviderChoice → Except String (EnrichedProduct × List Source × Nat × Nat)
  | .zhipuai => svc.zhipuCall
  | .cloudru => svc.cloudruCall

/-- `ProductEnricherService._select_client`: route to Cloud.ru when
`country_origin` is truthy, uppercases into `RUSSIAN_COUNTRY_CODES`, and the
Cloud.ru client is configured; otherwise Zhipu AI. -/
def selectClient (svc : EnricherService) (country_origin : Option String) :
    ProviderChoice :=
  match country_origin with
  | some c =>
    if pyTruthy c && RUSSIAN_COUNTRY_CODES.contains (pyUpper c)
        && svc.cloudruConfigured then
      .cloudru
    else .zhipuai
  | none => .zhipuai

/-- What a single `enrich_product` call did: which provider client (if any)
was invoked, the returned result or raised `EnrichmentError` message, and the
cache state afterwards. -/
structure EnrichOutcome where
  invoked : Option ProviderChoice
  result : Except String EnrichmentResult
  cache : CacheState

/-- `ProductEnricherService.enrich_product`: default the options, select the
client from `product.country_origin`, consult the cache (counting the
hit/miss), return a cache hit directly; otherwise await the selected client,
wrap a raised exception into `EnrichmentError`, else assemble the metadata
(`web_search_used = include_web_search and provider_name == "zhipuai"`) and
result, and store it in the cache. -/
def enrichProduct (svc : EnricherService) (product : EnricherProduct)
    (options? : Option EnrichmentOptions := none) (use_cache : Bool := true)
    (now : Nat := 0) : EnrichOutcome :=
  let options := options?.getD {}
  let client := selectClient svc product.country_origin
  let cacheStep : Option EnrichmentResult × CacheState :=
    if use_cache then
      cacheGet svc.cache product.name options.language (some options.fields)
        options.include_web_search
    else (none, svc.cache)
  match cacheStep with
  | (some cached, cache') => { invoked := none, result := .ok cached, cache := cache' }
  | (none, cache') =>
    match clientCallOf svc client with
    | .error e =>
      { invoked := some client
        result := .error ("Failed to enrich product: " ++ e)
        cache := cache' }
    | .ok (enriched, sources, tokens_used, processing_time_ms) =>
      let metadata : EnrichmentMetadata :=
        { model_used := modelNameOf svc client
          llm_provider := providerNameOf svc client
          tokens_used := tokens_used
          processing_time_ms := processing_time_ms
          web_search_used :=
            options.include_web_search && (providerNameOf svc client == "zhipuai")
          cached := false
          timestamp := now }
      let result : EnrichmentResult :=
        { product := product, enriched := enriched, sources := sources
          metadata := metadata }
      let cache'' :=
        if use_cache then
          cacheSet cache' result options.language (some options.fields)
            options.include_web_search
        else cache'
      { invoked := some client, result := .ok result, cache := cache'' }

/-- The cache key under which `enrich_product` looks up and stores a product:
only the name enters it, never `country_origin`. -/
def enrichCacheKey (product : EnricherProduct) (options : EnrichmentOptions) :
    CacheKey :=
  generateKey product.name options.language options.fields options.include_web_search

/-! ## Batch processing (`ProductEnricherService.enrich_batch`) -/

/-- `BatchOptions` from `models/enrichment.py` with its defaults. -/
structure BatchOptions where
  max_concurrent : Nat := 5
  fail_strategy : String := "continue"
  timeout_per_product : Nat := 60

/-- `BatchResultItem` from `models/enrichment.py`. -/
structure BatchResultItem where
  index : Nat
  success : Bool
  result : Option EnrichmentResult
  error : Option String

/-- `BatchSummary` from `models/enrichment.py`. -/
structure BatchSummary where
  total : Nat
  succeeded : Nat
  failed : Nat
  total_tokens : Nat
  total_time_ms : Nat

/-- The resolution of one item's pipeline inside `process_product`: the
awaited `enrich_product` result, an `asyncio.wait_for` timeout, or any other
exception (with its string form). -/
inductive ItemOutcome where
  | ok (r : EnrichmentResult) : ItemOutcome
  | timeout : ItemOutcome
  | exc (msg : String) : ItemOutcome

/-- The `process_product` closure of `enrich_batch`: every outcome of one
item becomes that item's own `BatchResultItem`; no exception escapes. -/
def processProduct (timeout_per_product : Nat) (index : Nat) (o : ItemOutcome) :
    BatchResultItem :=
  match o with
  | .ok r => { index := index, success := true, result := some r, error := none }
  | .timeout =>
    { index := index, success := false, result := none
      error := some ("Timeout after " ++ toString timeout_per_product ++ "s") }
  | .exc m => { index := index, success := false, result := none, error := some m }

/-- The `"continue"` strategy: `asyncio.gather` over the tasks
`process_product(i, products[i])`, whose results come back in task order —
i.e. input order — regardless of completion order. -/
def batchContinue (timeout_per_product : Nat) (n : Nat)
    (outcome : Nat → ItemOutcome) : List BatchResultItem :=
  (List.range n).map (fun i => processProduct timeout_per_product i (outcome i))

/-- The `"stop"` strategy: process items one at a time in input order,
appending each result and breaking right after the first unsuccessful one. -/
def batchStop (timeout_per_product : Nat) (outcome : Nat → ItemOutcome) :
    Nat → Nat → List BatchResultItem
  | _, 0 => []
  | i, remaining + 1 =>
    let item := processProduct timeout_per_product i (outcome i)
    if item.success then item :: batchStop timeout_per_product outcome (i + 1) remaining
    else [item]

/-- The summary loop at the end of `enrich_batch`: an item counts as
succeeded when `result.success and result.result`; only succeeded items
contribute tokens. -/
def batchSummaryOf (results : List BatchResultItem) (total_time_ms : Nat) :
    BatchSummary :=
  { total := results.length
    succeeded := (results.filter (fun r => r.success && r.result.isSome)).length
    failed := (results.filter (fun r => !(r.success && r.result.isSome))).length
    total_tokens :=
      (results.foldl
        (fun acc r =>
          if r.success then
            match r.result with
            | some res => acc + res.metadata.tokens_used
            | none => acc
          else acc) 0)
    total_time_ms := total_time_ms }

/-- `ProductEnricherService.enrich_batch` over `n` products whose individual
pipeline resolutions are `outcome`: dispatch according to the fail strategy
and compute the summary. -/
def enrichBatch (n : Nat) (batch_options : BatchOptions)
    (outcome : Nat → ItemOutcome) (total_time_ms : Nat := 0) :
    List BatchResultItem × BatchSummary :=
  let results :=
    if batch_options.fail_strategy == "continue" then
      batchContinue batch_options.timeout_per_product n outcome
    else
      batchStop batch_options.timeout_per_product outcome 0 n
  (results, batchSummaryOf results total_time_ms)

/-! ## `ProductInput` as defined in the snapshot's `models/product.py` -/

/-- The field names the pydantic `ProductInput` class in `models/product.py`
declares. -/
def productInputFieldNames : List String :=
  ["name", "category", "brand", "description", "sku", "attributes"]

/-- The pydantic `ProductInput` of `models/product.py`. -/
structure ProductInputModel where
  name : String
  category : Option String := none
  brand : Option String := none
  description : Option String := none
  sku : Option String := none
  attributes : Option (List (String × Json)) := none

/-- `max_length` check for an optional string field. -/
def optLenLe (o : Option String) (n : Nat) : Bool :=
  match o with
  | none => true
  | some s => s.length ≤ n

/-- The pydantic constraints of `ProductInput` in `models/product.py`:
`name` 1–500 characters, `category` ≤ 200, `brand` ≤ 200,
`description` ≤ 5000, `sku` ≤ 100. -/
def validProductInput (p : ProductInputModel) : Bool :=
  1 ≤ p.name.length && p.name.length ≤ 500 &&
  optLenLe p.category 200 && optLenLe p.brand 200 &&
  optLenLe p.description 5000 && optLenLe p.sku 100

/-! # Theorems -/

/-! ## Shared helper lemmas -/

/-- `sorted(fields)` is invariant under reordering. -/
theorem sortStrings_eq_of_perm {l₁ l₂ : List String} (h : l₁.Perm l₂) :
    sortStrings l₁ = sortStrings l₂ := by
  unfold sortStrings
  exact List.eq_of_perm_of_sorted
    (((List.perm_insertionSort _ l₁).trans h).trans (List.perm_insertionSort _ l₂).symm)
    (List.sorted_insertionSort _ l₁) (List.sorted_insertionSort _ l₂)

/-- Conversely, equal sorted field lists come from permuted field lists. -/
theorem perm_of_sortStrings_eq {l₁ l₂ : List String}
    (h : sortStrings l₁ = sortStrings l₂) : l₁.Perm l₂ := by
  have h₁ : (sortStrings l₁).Perm l₁ := List.perm_insertionSort _ l₁
  have h₂ : (sortStrings l₂).Perm l₂ := List.perm_insertionSort _ l₂
  rw [h] at h₁
  exact h₁.symm.trans h₂

/-- After `storePut`, looking up the stored key finds the stored value. -/
theorem storePut_find (entries : List (CacheKey × EnrichmentResult))
    (key : CacheKey) (v : EnrichmentResult) :
    (storePut entries key v).find? (fun e => e.1 == key) = some (key, v) := by
  unfold storePut
  rw [List.find?_cons_of_pos]
  simp

/-- An unused key is not found in a singleton store. -/
theorem find_singleton_ne (key key' : CacheKey) (v : EnrichmentResult)
    (h : key ≠ key') :
    ([(key, v)].find? (fun e => e.1 == key')) = none := by
  rw [List.find?_cons_of_neg, List.find?_nil]
  simp [h]

/-! ## C10 — `clear` empties the store but leaves the counters alone -/

/-- C10: `CacheService.clear` removes every entry and returns the number
removed; `get_stats()` immediately afterwards reports size 0 while `hits`,
`misses` and `hit_rate_percent` are exactly their values before the clear. -/
theorem clear_removes_entries_preserves_counters (st : CacheState) :
    (cacheClear st).1 = st.entries.length ∧
    (cacheClear st).2.entries = [] ∧
    getStats (cacheClear st).2 =
      { size := 0
        max_size := st.max_size
        ttl_seconds := st.ttl_seconds
        hits := st.hits
        misses := st.misses
        hit_rate_percent := (getStats st).hit_rate_percent } := by
  refine ⟨rfl, rfl, ?_⟩
  simp [cacheClear, getStats]

/-! ## C9 — the snapshot's `ProductInput` does not match the claimed model -/

/-- C9: evaluated against `models/product.py` as present in the snapshot, the
claim fails: the class declares no `country_origin` attribute at all (yet the
enricher reads `product.country_origin` and the repository's own tests
construct it), and a 600-character name — legal under the claimed 1–1000
bound — is rejected by the snapshot's 1–500 bound. -/
theorem productInput_snapshot_diverges :
    productInputFieldNames.contains "country_origin" = false ∧
    validProductInput { name := String.mk (List.replicate 600 'a') } = false := by
  constructor
  · rfl
  · have hlen : (String.mk (List.replicate 600 'a')).length = 600 := by
      rw [show (String.mk (List.replicate 600 'a')).length =
            (List.replicate 600 'a').length from rfl,
          List.length_replicate]
    simp only [validProductInput, hlen, optLenLe]
    decide

/-! ## C4 — the retry decorator never retries -/

/-- C4: contrary to the claimed 3-attempt retry, a transport that raises
`TimeoutError` (or `ConnectionError`) on every call results in exactly one
underlying chat-completion invocation before the call fails with the
provider's API error: the body's blanket `except Exception` wraps the
transport error into `ZhipuAPIError`/`CloudruAPIError` before tenacity's
`retry_if_exception_type((TimeoutError, ConnectionError))` filter can match
it. -/
theorem retry_makes_one_attempt (options : EnrichmentOptions) :
    enrichWithRetry (fun _ => .raise .timeoutError) options = (1, .error .apiError) ∧
    enrichWithRetry (fun _ => .raise .connectionError) options = (1, .error .apiError) :=
  ⟨rfl, rfl⟩

/-! ## C5 — the claimed repair of the truncated completion does not happen -/

/-- ASCII apostrophe. -/
def apos : Char := Char.ofNat 39

/-- The malformed completion of the concrete scenario:
`Here's the data: {"description": "Test", "features": ["F1"`. -/
def c5Content : String :=
  "Here" ++ String.mk [apos] ++
  "s the data: \x7b\"description\": \"Test\", \"features\": [\"F1\""

/-- The requested fields of the concrete scenario. -/
def c5Options : EnrichmentOptions := { fields := ["description", "features"] }

/-- C5 counterexample: on the scenario's input the parser yields
`description = None` and `features = []`, not the claimed recovered values. -/
theorem c5_truncated_not_recovered :
    (parseResponse c5Content c5Options).map (fun p => (p.1.description, p.1.features)) =
      .ok (none, []) ∧
    ((none : Option String), ([] : List String)) ≠ (some "Test", ["F1"]) :=
  ⟨rfl, by decide⟩

/-- C5 amended: the parser indeed does not raise on the truncated completion,
but because the content contains no closing `}` the `\{[\s\S]*\}` span search
fails, the manual-repair path is never reached, and both requested fields
stay at their empty defaults. -/
theorem c5_truncated_yields_defaults :
    searchBraceSpan c5Content = none ∧
    parseResponse c5Content c5Options = .ok ({}, []) :=
  ⟨rfl, rfl⟩

/-! ## C1 — provider routing -/

/-- `pyUpper` of the empty string is empty, so a string whose uppercasing is a
country code is truthy. -/
theorem pyTruthy_of_upper_eq (c : String) (v : String) (hv : v ≠ "")
    (h : pyUpper c = v) : pyTruthy c = true := by
  unfold pyTruthy
  cases hc : c.data with
  | nil =>
    exfalso
    apply hv
    rw [← h]
    unfold pyUpper
    rw [hc]
    rfl
  | cons a l => simp

/-- `_select_client` picks Cloud.ru exactly when the uppercased
`country_origin` is `RU` or `RUS` and Cloud.ru is configured. -/
theorem selectClient_iff (svc : EnricherService) (co : Option String) :
    selectClient svc co = .cloudru ↔
      ((∃ c, co = some c ∧ (pyUpper c = "RU" ∨ pyUpper c = "RUS")) ∧
        svc.cloudruConfigured = true) := by
  cases co with
  | none => simp [selectClient]
  | some c =>
    simp only [selectClient]
    by_cases hb : (pyTruthy c && RUSSIAN_COUNTRY_CODES.contains (pyUpper c)
        && svc.cloudruConfigured) = true
    · rw [if_pos hb]
      simp only [Bool.and_eq_true] at hb
      constructor
      · intro _
        refine ⟨⟨c, rfl, ?_⟩, hb.2⟩
        have h2 := hb.1.2
        simp [RUSSIAN_COUNTRY_CODES, List.contains] at h2
        tauto
      · intro _
        rfl
    · rw [if_neg hb]
      constructor
      · intro h
        cases h
      · rintro ⟨⟨c', hc', hru⟩, hcfg⟩
        injection hc' with hcc
        subst hcc
        exfalso
        apply hb
        have htr : pyTruthy c = true := by
          cases hru with
          | inl h => exact pyTruthy_of_upper_eq c "RU" (by decide) h
          | inr h => exact pyTruthy_of_upper_eq c "RUS" (by decide) h
        have hmem : RUSSIAN_COUNTRY_CODES.contains (pyUpper c) = true := by
          simp [RUSSIAN_COUNTRY_CODES, List.contains]
          tauto
        rw [htr, hmem, hcfg]
        rfl

/-- Whenever `enrich_product` invokes a provider, it is the selected one. -/
theorem enrichProduct_invoked_eq_selected (svc : EnricherService)
    (product : EnricherProduct) (options? : Option EnrichmentOptions)
    (use_cache : Bool) (now : Nat) (p : ProviderChoice)
    (hp : (enrichProduct svc product options? use_cache now).invoked = some p) :
    p = selectClient svc product.country_origin := by
  unfold enrichProduct at hp
  dsimp only at hp
  repeat' split at hp
  all_goals simp_all

/-- With the cache bypassed, `enrich_product` always invokes the selected
provider. -/
theorem enrichProduct_invoked_of_no_cache (svc : EnricherService)
    (product : EnricherProduct) (options? : Option EnrichmentOptions) (now : Nat) :
    (enrichProduct svc product options? false now).invoked =
      some (selectClient svc product.country_origin) := by
  unfold enrichProduct
  dsimp only
  split
  · next heq => simp at heq
  · split <;> rfl

/-- C1: a single-product enrichment call selects Cloud.ru exactly when the
product's `country_origin`, uppercased, lies in `{RU, RUS}` and the Cloud.ru
client is configured (Zhipu AI in every other case — origin absent, an
unrecognized code, or Cloud.ru unconfigured); the client it invokes is
exactly the selected one; and a provider is invoked on every call except a
cache hit (in particular always when the cache is bypassed). -/
theorem routing_selects_and_invokes (svc : EnricherService)
    (product : EnricherProduct) (options? : Option EnrichmentOptions)
    (use_cache : Bool) (now : Nat) :
    (selectClient svc product.country_origin = .cloudru ↔
      ((∃ c, product.country_origin = some c ∧
        (pyUpper c = "RU" ∨ pyUpper c = "RUS")) ∧ svc.cloudruConfigured = true)) ∧
    (selectClient svc product.country_origin = .zhipuai ↔
      ¬((∃ c, product.country_origin = some c ∧
        (pyUpper c = "RU" ∨ pyUpper c = "RUS")) ∧ svc.cloudruConfigured = true)) ∧
    (∀ p, (enrichProduct svc product options? use_cache now).invoked = some p →
      p = selectClient svc product.country_origin) ∧
    (use_cache = false →
      (enrichProduct svc product options? use_cache now).invoked =
        some (selectClient svc product.country_origin)) ∧
    ((enrichProduct svc product options? use_cache now).invoked = none →
      use_cache = true ∧
      (cacheGet svc.cache product.name (options?.getD {}).language
        (some (options?.getD {}).fields)
        (options?.getD {}).include_web_search).1.isSome = true) := by
  refine ⟨selectClient_iff svc product.country_origin, ?_, ?_, ?_, ?_⟩
  · rw [← selectClient_iff svc product.country_origin]
    cases h : selectClient svc product.country_origin <;> simp [h]
  · exact fun p hp =>
      enrichProduct_invoked_eq_selected svc product options? use_cache now p hp
  · intro h
    subst h
    exact enrichProduct_invoked_of_no_cache svc product options? now
  · intro hnone
    unfold enrichProduct at hnone
    dsimp only at hnone
    split at hnone
    · next hcs =>
      by_cases huse : use_cache = true
      · rw [if_pos huse] at hcs
        refine ⟨huse, ?_⟩
        rw [hcs]
        rfl
      · rw [if_neg huse] at hcs
        exact absurd (congrArg Prod.fst hcs) (by simp)
    · split at hnone <;> simp at hnone

/-- A concrete service used by several witnesses: Cloud.ru configured, both
clients succeeding. -/
def svcW : EnricherService :=
  { zhipuModel := "glm-4.6"
    cloudruModel := "giga"
    cloudruConfigured := true
    zhipuCall := .ok ({}, [], 1, 2)
    cloudruCall := .ok ({}, [], 3, 4)
    cache := { ttl_seconds := 3600, max_size := 1000 } }

/-- C1 witness: with Cloud.ru configured, `country_origin="ru"` routes (and,
with the cache bypassed, dispatches) to Cloud.ru, while `"CN"` stays on
Zhipu AI. -/
theorem routing_selects_and_invokes_witness :
    selectClient svcW (some "ru") = .cloudru ∧
    selectClient svcW (some "CN") = .zhipuai ∧
    (enrichProduct svcW { name := "p", country_origin := some "ru" } none false 0).invoked =
      some (selectClient svcW (some "ru")) := by
  have h₁ := routing_selects_and_invokes svcW
    { name := "p", country_origin := some "ru" } none false 0
  have h₂ := routing_selects_and_invokes svcW
    { name := "p", country_origin := some "CN" } none false 0
  refine ⟨h₁.1.mpr ⟨⟨"ru", rfl, by decide⟩, rfl⟩, ?_, h₁.2.2.2.1 rfl⟩
  apply h₂.2.1.mpr
  rintro ⟨⟨c, hc, hru⟩, -⟩
  injection hc with hcc
  subst hcc
  revert hru
  decide

/-! ## C6 — results routed to the regional provider -/

/-- C6: every `enrich_product` call that invokes the Cloud.ru client returns
a result whose `metadata.llm_provider` is `"cloudru"` and whose
`metadata.web_search_used` is `false`, whatever `include_web_search`
requested: the orchestrator computes `web_search_used` as the request flag
AND the provider tag being `"zhipuai"`. -/
theorem regional_result_metadata (svc : EnricherService)
    (product : EnricherProduct) (options? : Option EnrichmentOptions)
    (use_cache : Bool) (now : Nat) (r : EnrichmentResult)
    (hinv : (enrichProduct svc product options? use_cache now).invoked = some .cloudru)
    (hres : (enrichProduct svc product options? use_cache now).result = .ok r) :
    r.metadata.llm_provider = "cloudru" ∧ r.metadata.web_search_used = false := by
  have hcomb : (enrichProduct svc product options? use_cache now).invoked = some .cloudru ∧
      (enrichProduct svc product options? use_cache now).result = .ok r := ⟨hinv, hres⟩
  clear hinv hres
  unfold enrichProduct at hcomb
  dsimp only at hcomb
  repeat' split at hcomb
  all_goals obtain ⟨h1, h2⟩ := hcomb
  all_goals
    first
    | (simp at h1; done)
    | (simp at h2; done)
    | (injection h1 with h1'
       injection h2 with h2'
       subst h2'
       rw [h1']
       exact ⟨rfl, by simp [providerNameOf]⟩)

/-- The product of the C6 witness: Russian origin. -/
def prodRU : EnricherProduct := { name := "Яндекс Станция Макс", country_origin := some "RU" }

/-- The options of the C6 witness: web search explicitly requested. -/
def optsWS : EnrichmentOptions := { include_web_search := true }

/-- The result the orchestrator assembles in the C6 witness scenario. -/
def c6Result : EnrichmentResult :=
  { product := prodRU
    enriched := {}
    sources := []
    metadata :=
      { model_used := "giga"
        llm_provider := "cloudru"
        tokens_used := 3
        processing_time_ms := 4
        web_search_used := false
        cached := false
        timestamp := 0 } }

/-- C6 witness: the RU-routed call with `include_web_search := true` yields
`llm_provider = "cloudru"` and `web_search_used = false`. -/
theorem regional_result_metadata_witness :
    c6Result.metadata.llm_provider = "cloudru" ∧
    c6Result.metadata.web_search_used = false :=
  regional_result_metadata svcW prodRU (some optsWS) false 0 c6Result rfl rfl

/-! ## C7 — `continue` strategy: order, completeness, isolation -/

/-- `process_product` tags its item with its input index. -/
theorem processProduct_index (t i : Nat) (o : ItemOutcome) :
    (processProduct t i o).index = i := by
  cases o <;> rfl

/-- Position `i` of the `continue`-mode results is item `i`'s own outcome. -/
theorem batchContinue_get (t n : Nat) (outcome : Nat → ItemOutcome)
    (i : Nat) (h : i < (batchContinue t n outcome).length) :
    (batchContinue t n outcome).get ⟨i, h⟩ = processProduct t i (outcome i) := by
  unfold batchContinue
  simp [List.get_eq_getElem]

/-- `continue` mode returns one item per product. -/
theorem batchContinue_length (t n : Nat) (outcome : Nat → ItemOutcome) :
    (batchContinue t n outcome).length = n := by
  simp [batchContinue]

/-- C7: under `fail_strategy = "continue"`, `enrich_batch` returns exactly one
`BatchResultItem` per input, the item at position `i` carrying `index = i` and
depending only on item `i`'s own pipeline outcome; an exception in one item is
captured as that item's `error` string and leaves every sibling untouched. -/
theorem continue_strategy_isolation (n total : Nat) (bo : BatchOptions)
    (outcome : Nat → ItemOutcome) (hstrat : bo.fail_strategy = "continue") :
    ((enrichBatch n bo outcome total).1.length = n) ∧
    (∀ i, ∀ h : i < (enrichBatch n bo outcome total).1.length,
      ((enrichBatch n bo outcome total).1.get ⟨i, h⟩).index = i ∧
      (enrichBatch n bo outcome total).1.get ⟨i, h⟩ =
        processProduct bo.timeout_per_product i (outcome i)) ∧
    (∀ i m, outcome i = .exc m → ∀ h : i < (enrichBatch n bo outcome total).1.length,
      ((enrichBatch n bo outcome total).1.get ⟨i, h⟩).success = false ∧
      ((enrichBatch n bo outcome total).1.get ⟨i, h⟩).error = some m) := by
  have hres : (enrichBatch n bo outcome total).1 =
      batchContinue bo.timeout_per_product n outcome := by
    simp [enrichBatch, hstrat]
  have hget : ∀ i, ∀ h : i < (enrichBatch n bo outcome total).1.length,
      (enrichBatch n bo outcome total).1.get ⟨i, h⟩ =
        processProduct bo.timeout_per_product i (outcome i) := by
    intro i h
    rw [List.get_of_eq hres ⟨i, h⟩, batchContinue_get]
  refine ⟨by rw [hres, batchContinue_length], ?_, ?_⟩
  · intro i h
    exact ⟨by rw [hget i h, processProduct_index], hget i h⟩
  · intro i m hexc h
    rw [hget i h, hexc]
    exact ⟨rfl, rfl⟩

/-- A concrete successful result used by the batch witnesses. -/
def dummyResult : EnrichmentResult :=
  { product := { name := "p" }
    enriched := {}
    metadata :=
      { model_used := "m", tokens_used := 5, processing_time_ms := 7
        web_search_used := false } }

/-- The item outcomes of the batch witnesses: item 1 raises, others
succeed. -/
def outcomeW : Nat → ItemOutcome :=
  fun i => if i == 1 then .exc "boom" else .ok dummyResult

/-- C7 witness: a 3-item batch under the default (`continue`) options yields
3 results, and the failing middle item carries its own error. -/
theorem continue_strategy_isolation_witness :
    (enrichBatch 3 {} outcomeW 0).1.length = 3 ∧
    ∀ h : 1 < (enrichBatch 3 {} outcomeW 0).1.length,
      ((enrichBatch 3 {} outcomeW 0).1.get ⟨1, h⟩).success = false ∧
      ((enrichBatch 3 {} outcomeW 0).1.get ⟨1, h⟩).error = some "boom" := by
  have h := continue_strategy_isolation 3 0 {} outcomeW rfl
  exact ⟨h.1, fun hh => h.2.2 1 "boom" rfl hh⟩

/-! ## C8 — `stop` strategy short-circuit -/

/-- The `stop` loop from index `i`: all items up to the first failure, the
failing item included, nothing after it. -/
theorem batchStop_halt (t : Nat) (outcome : Nat → ItemOutcome) :
    ∀ (k i remaining : Nat), k < remaining →
    (∀ j, j < k → (processProduct t (i + j) (outcome (i + j))).success = true) →
    (processProduct t (i + k) (outcome (i + k))).success = false →
    batchStop t outcome i remaining =
      (List.range (k + 1)).map (fun j => processProduct t (i + j) (outcome (i + j))) := by
  intro k
  induction k with
  | zero =>
    intro i remaining h0 _ hfail
    obtain ⟨r, rfl⟩ : ∃ r, remaining = r + 1 := ⟨remaining - 1, by omega⟩
    unfold batchStop
    rw [Nat.add_zero] at hfail
    rw [show List.range 1 = [0] from rfl]
    simp [hfail]
  | succ k ih =>
    intro i remaining hlt hbefore hfail
    obtain ⟨r, rfl⟩ : ∃ r, remaining = r + 1 := ⟨remaining - 1, by omega⟩
    unfold batchStop
    have hsucc0 : (processProduct t i (outcome i)).success = true := by
      have := hbefore 0 (by omega)
      rwa [Nat.add_zero] at this
    rw [if_pos hsucc0]
    have hrec := ih (i + 1) r (by omega)
      (fun j hj => by
        have := hbefore (j + 1) (by omega)
        rwa [show i + (j + 1) = i + 1 + j by omega] at this)
      (by rw [show i + 1 + k = i + (k + 1) by omega]; exact hfail)
    rw [hrec]
    conv_rhs => rw [List.range_succ_eq_map]
    rw [List.map_cons, List.map_map, Nat.add_zero]
    congr 1
    apply List.map_congr_left
    intro j _
    simp only [Function.comp_apply]
    rw [show i + 1 + j = i + (j + 1) by omega]

/-- C8: under `fail_strategy = "stop"`, when the first `k` items succeed and
item `k` fails (k < n), `enrich_batch` returns exactly the first `k + 1`
items in input order — the failing item included and no later one. -/
theorem stop_strategy_short_circuit (n k total : Nat) (bo : BatchOptions)
    (outcome : Nat → ItemOutcome) (hstrat : bo.fail_strategy = "stop")
    (hk : k < n)
    (hbefore : ∀ j, j < k →
      (processProduct bo.timeout_per_product j (outcome j)).success = true)
    (hfail : (processProduct bo.timeout_per_product k (outcome k)).success = false) :
    (enrichBatch n bo outcome total).1 =
      (List.range (k + 1)).map
        (fun j => processProduct bo.timeout_per_product j (outcome j)) ∧
    (enrichBatch n bo outcome total).1.length = k + 1 := by
  have hres : (enrichBatch n bo outcome total).1 =
      batchStop bo.timeout_per_product outcome 0 n := by
    simp [enrichBatch, hstrat]
  have hhalt := batchStop_halt bo.timeout_per_product outcome k 0 n hk
    (fun j hj => by
      have := hbefore j hj
      rwa [Nat.zero_add])
    (by rw [Nat.zero_add]; exact hfail)
  have hmap : (List.range (k + 1)).map
        (fun j => processProduct bo.timeout_per_product (0 + j) (outcome (0 + j))) =
      (List.range (k + 1)).map
        (fun j => processProduct bo.timeout_per_product j (outcome j)) := by
    apply List.map_congr_left
    intro j _
    rw [Nat.zero_add]
  constructor
  · rw [hres, hhalt, hmap]
  · rw [hres, hhalt, List.length_map, List.length_range]

/-- C8 witness: 3 products where item 1 (0-based) fails under `"stop"` yield
exactly 2 results. -/
theorem stop_strategy_short_circuit_witness :
    (enrichBatch 3 { fail_strategy := "stop" } outcomeW 0).1.length = 2 :=
  (stop_strategy_short_circuit 3 1 0 { fail_strategy := "stop" } outcomeW rfl
    (by decide)
    (fun j hj => by
      have hj0 : j = 0 := by omega
      subst hj0
      rfl)
    rfl).2

/-! ## C3 — cache key semantics -/

/-- C3: a `get` whose name matches up to case and surrounding whitespace and
whose field list is any reordering of the stored one hits and returns a
result with `metadata.cached = true`; changing the language, the field set,
or the web-search flag alone turns the lookup into a miss; and the key used
by the orchestrator ignores `country_origin` entirely, so products differing
only in origin address the same cache entry. -/
theorem cache_key_semantics :
    (∀ (st : CacheState) (r : EnrichmentResult) (lang : String)
        (fields fields₂ : List String) (ws : Bool) (name₂ : String),
      pyStrip (pyLower name₂) = pyStrip (pyLower r.product.name) →
      fields₂.Perm fields →
      ∃ res,
        (cacheGet (cacheSet st r lang (some fields) ws) name₂ lang
          (some fields₂) ws).1 = some res ∧ res.metadata.cached = true) ∧
    (∀ (ttl mx hits misses : Nat) (r : EnrichmentResult) (lang lang₂ : String)
        (fields : List String) (ws : Bool), lang₂ ≠ lang →
      (cacheGet (cacheSet ⟨ttl, mx, [], hits, misses⟩ r lang (some fields) ws)
        r.product.name lang₂ (some fields) ws).1 = none) ∧
    (∀ (ttl mx hits misses : Nat) (r : EnrichmentResult) (lang : String)
        (fields fields₂ : List String) (ws : Bool), ¬ fields₂.Perm fields →
      (cacheGet (cacheSet ⟨ttl, mx, [], hits, misses⟩ r lang (some fields) ws)
        r.product.name lang (some fields₂) ws).1 = none) ∧
    (∀ (ttl mx hits misses : Nat) (r : EnrichmentResult) (lang : String)
        (fields : List String) (ws ws₂ : Bool), ws₂ ≠ ws →
      (cacheGet (cacheSet ⟨ttl, mx, [], hits, misses⟩ r lang (some fields) ws)
        r.product.name lang (some fields) ws₂).1 = none) ∧
    (∀ (p₁ p₂ : EnricherProduct) (options : EnrichmentOptions), p₁.name = p₂.name →
      enrichCacheKey p₁ options = enrichCacheKey p₂ options) := by
  refine ⟨?_, ?_, ?_, ?_, ?_⟩
  · intro st r lang fields fields₂ ws name₂ hname hperm
    have hkey : generateKey name₂ lang fields₂ ws =
        generateKey r.product.name lang fields ws := by
      unfold generateKey
      rw [hname, sortStrings_eq_of_perm hperm]
    simp only [cacheGet, cacheSet, Option.getD_some]
    rw [hkey, storePut_find]
    exact ⟨_, rfl, rfl⟩
  · intro ttl mx hits misses r lang lang₂ fields ws hlang
    have hkey : generateKey r.product.name lang fields ws ≠
        generateKey r.product.name lang₂ fields ws := by
      intro h
      simp only [generateKey, CacheKey.mk.injEq] at h
      exact hlang h.2.1.symm
    simp only [cacheGet, cacheSet, Option.getD_some]
    rw [show storePut [] (generateKey r.product.name lang fields ws) r =
          [(generateKey r.product.name lang fields ws, r)] from rfl,
        find_singleton_ne _ _ _ hkey]
    rfl
  · intro ttl mx hits misses r lang fields fields₂ ws hperm
    have hkey : generateKey r.product.name lang fields ws ≠
        generateKey r.product.name lang fields₂ ws := by
      intro h
      simp only [generateKey, CacheKey.mk.injEq] at h
      exact hperm (perm_of_sortStrings_eq h.2.2.1.symm)
    simp only [cacheGet, cacheSet, Option.getD_some]
    rw [show storePut [] (generateKey r.product.name lang fields ws) r =
          [(generateKey r.product.name lang fields ws, r)] from rfl,
        find_singleton_ne _ _ _ hkey]
    rfl
  · intro ttl mx hits misses r lang fields ws ws₂ hws
    have hkey : generateKey r.product.name lang fields ws ≠
        generateKey r.product.name lang fields ws₂ := by
      intro h
      simp only [generateKey, CacheKey.mk.injEq] at h
      exact hws h.2.2.2.symm
    simp only [cacheGet, cacheSet, Option.getD_some]
    rw [show storePut [] (generateKey r.product.name lang fields ws) r =
          [(generateKey r.product.name lang fields ws, r)] from rfl,
        find_singleton_ne _ _ _ hkey]
    rfl
  · intro p₁ p₂ options hname
    unfold enrichCacheKey generateKey
    rw [hname]

/-- C3 witness: a concrete round trip through the cache — case/whitespace
variation of the name and a reordered field list still hit (with
`cached = true`); a changed language, field set, or web-search flag misses;
two products differing only in `country_origin` share one key. -/
theorem cache_key_semantics_witness :
    (∃ res,
      (cacheGet (cacheSet ⟨3600, 1000, [], 0, 0⟩ dummyResult "ru" (some ["b", "a"]) true)
        " P " "ru" (some ["a", "b"]) true).1 = some res ∧
      res.metadata.cached = true) ∧
    (cacheGet (cacheSet ⟨3600, 1000, [], 0, 0⟩ dummyResult "ru" (some ["a", "b"]) true)
      dummyResult.product.name "en" (some ["a", "b"]) true).1 = none ∧
    (cacheGet (cacheSet ⟨3600, 1000, [], 0, 0⟩ dummyResult "ru" (some ["a", "b"]) true)
      dummyResult.product.name "ru" (some ["a", "c"]) true).1 = none ∧
    (cacheGet (cacheSet ⟨3600, 1000, [], 0, 0⟩ dummyResult "ru" (some ["a", "b"]) true)
      dummyResult.product.name "ru" (some ["a", "b"]) false).1 = none ∧
    enrichCacheKey { name := "p", country_origin := some "RU" } {} =
      enrichCacheKey { name := "p", country_origin := some "CN" } {} := by
  refine ⟨cache_key_semantics.1 ⟨3600, 1000, [], 0, 0⟩ dummyResult "ru" ["b", "a"]
      ["a", "b"] true " P " (by decide) (by decide),
    cache_key_semantics.2.1 3600 1000 0 0 dummyResult "ru" "en" ["a", "b"] true
      (by decide),
    cache_key_semantics.2.2.1 3600 1000 0 0 dummyResult "ru" ["a", "b"] ["a", "c"] true
      (by decide),
    cache_key_semantics.2.2.2.1 3600 1000 0 0 dummyResult "ru" ["a", "b"] true false
      (by decide),
    cache_key_semantics.2.2.2.2 _ _ {} rfl⟩

/-! ## C2 — field projection invariant of the response parser -/

/-- `Except.ok` is injective. -/
theorem exceptOk_inj {α : Type} {a b : α} (h : (Except.ok a : Except Unit α) = .ok b) :
    a = b := by
  injection h

/-- An unrequested scalar field is forced to `None`. -/
theorem scalarField_not_mem {data : List (String × Json)} {fields : List String}
    {name : String} (h : name ∉ fields) :
    scalarField data fields name = .ok none := by
  unfold scalarField
  rw [if_neg]
  simpa [List.contains] using h

/-- A requested scalar field absent from the parsed output stays `None`. -/
theorem scalarField_get_none {data : List (String × Json)} {fields : List String}
    {name : String} (h : pyDictGet data name = none) :
    scalarField data fields name = .ok none := by
  unfold scalarField
  split
  · rw [h]
  · rfl

/-- An unrequested array field is forced to `[]`. -/
theorem arrayField_not_mem {data : List (String × Json)} {fields : List String}
    {name : String} (h : name ∉ fields) :
    arrayField data fields name = .ok [] := by
  unfold arrayField
  rw [if_neg]
  simpa [List.contains] using h

/-- A requested array field absent from the parsed output stays `[]`. -/
theorem arrayField_get_none {data : List (String × Json)} {fields : List String}
    {name : String} (h : pyDictGet data name = none) :
    arrayField data fields name = .ok [] := by
  unfold arrayField
  split
  · rw [h]
  · rfl

/-- An unrequested object field is forced to `{}`. -/
theorem objField_not_mem {data : List (String × Json)} {fields : List String}
    {name : String} (h : name ∉ fields) :
    objField data fields name = .ok [] := by
  unfold objField
  rw [if_neg]
  simpa [List.contains] using h

/-- A requested object field absent from the parsed output stays `{}`. -/
theorem objField_get_none {data : List (String × Json)} {fields : List String}
    {name : String} (h : pyDictGet data name = none) :
    objField data fields name = .ok [] := by
  unfold objField
  split
  · rw [h]
  · rfl

set_option linter.unusedTactic false in
/-- Inversion of a successful `EnrichedProduct` construction: each attribute
is the value its per-field validation produced. -/
theorem buildEnriched_ok {data : List (String × Json)} {fields : List String}
    {e : EnrichedProduct} (h : buildEnriched data fields = .ok e) :
    scalarField data fields "manufacturer" = .ok e.manufacturer ∧
    scalarField data fields "trademark" = .ok e.trademark ∧
    scalarField data fields "category" = .ok e.category ∧
    scalarField data fields "model_name" = .ok e.model_name ∧
    scalarField data fields "description" = .ok e.description ∧
    arrayField data fields "features" = .ok e.features ∧
    objField data fields "specifications" = .ok e.specifications ∧
    arrayField data fields "seo_keywords" = .ok e.seo_keywords ∧
    scalarField data fields "marketing_copy" = .ok e.marketing_copy ∧
    arrayField data fields "pros" = .ok e.pros ∧
    arrayField data fields "cons" = .ok e.cons := by
  unfold buildEnriched at h
  simp only [bind, Except.bind] at h
  repeat' split at h
  all_goals
    first
    | (simp at h; done)
    | (injection h with h'
       subst h'
       refine ⟨?_, ?_, ?_, ?_, ?_, ?_, ?_, ?_, ?_, ?_, ?_⟩ <;> assumption)

/-- C2: whenever `_parse_response` returns an `EnrichedProduct`, every
attribute whose field is not requested equals its empty default even if the
model output contained it, and every requested attribute that is absent from
the parsed model output also equals its empty default. -/
theorem field_projection (content : String) (options : EnrichmentOptions)
    (data : List (String × Json)) (e : EnrichedProduct) (srcs : List Source)
    (hdata : parseData content options = .ok data)
    (hok : parseResponse content options = .ok (e, srcs)) :
    ("manufacturer" ∉ options.fields → e.manufacturer = none) ∧
    ("trademark" ∉ options.fields → e.trademark = none) ∧
    ("category" ∉ options.fields → e.category = none) ∧
    ("model_name" ∉ options.fields → e.model_name = none) ∧
    ("description" ∉ options.fields → e.description = none) ∧
    ("features" ∉ options.fields → e.features = []) ∧
    ("specifications" ∉ options.fields → e.specifications = []) ∧
    ("seo_keywords" ∉ options.fields → e.seo_keywords = []) ∧
    ("marketing_copy" ∉ options.fields → e.marketing_copy = none) ∧
    ("pros" ∉ options.fields → e.pros = []) ∧
    ("cons" ∉ options.fields → e.cons = []) ∧
    (pyDictGet data "manufacturer" = none → e.manufacturer = none) ∧
    (pyDictGet data "trademark" = none → e.trademark = none) ∧
    (pyDictGet data "category" = none → e.category = none) ∧
    (pyDictGet data "model_name" = none → e.model_name = none) ∧
    (pyDictGet data "description" = none → e.description = none) ∧
    (pyDictGet data "features" = none → e.features = []) ∧
    (pyDictGet data "specifications" = none → e.specifications = []) ∧
    (pyDictGet data "seo_keywords" = none → e.seo_keywords = []) ∧
    (pyDictGet data "marketing_copy" = none → e.marketing_copy = none) ∧
    (pyDictGet data "pros" = none → e.pros = []) ∧
    (pyDictGet data "cons" = none → e.cons = []) := by
  have hbuild : buildEnriched data options.fields = .ok e := by
    unfold parseResponse at hok
    rw [hdata] at hok
    simp only [bind, Except.bind] at hok
    cases hb : buildEnriched data options.fields <;> rw [hb] at hok
    · simp at hok
    · next val =>
      simp only [pure, Except.pure] at hok
      injection hok with hok'
      have hval : val = e := congrArg Prod.fst hok'
      rw [hval]
  obtain ⟨c₁, c₂, c₃, c₄, c₅, c₆, c₇, c₈, c₉, c₁₀, c₁₁⟩ := buildEnriched_ok hbuild
  refine ⟨?_, ?_, ?_, ?_, ?_, ?_, ?_, ?_, ?_, ?_, ?_, ?_, ?_, ?_, ?_, ?_, ?_, ?_, ?_,
    ?_, ?_, ?_⟩
  · exact fun h => (exceptOk_inj ((scalarField_not_mem h).symm.trans c₁)).symm
  · exact fun h => (exceptOk_inj ((scalarField_not_mem h).symm.trans c₂)).symm
  · exact fun h => (exceptOk_inj ((scalarField_not_mem h).symm.trans c₃)).symm
  · exact fun h => (exceptOk_inj ((scalarField_not_mem h).symm.trans c₄)).symm
  · exact fun h => (exceptOk_inj ((scalarField_not_mem h).symm.trans c₅)).symm
  · exact fun h => (exceptOk_inj ((arrayField_not_mem h).symm.trans c₆)).symm
  · exact fun h => (exceptOk_inj ((objField_not_mem h).symm.trans c₇)).symm
  · exact fun h => (exceptOk_inj ((arrayField_not_mem h).symm.trans c₈)).symm
  · exact fun h => (exceptOk_inj ((scalarField_not_mem h).symm.trans c₉)).symm
  · exact fun h => (exceptOk_inj ((arrayField_not_mem h).symm.trans c₁₀)).symm
  · exact fun h => (exceptOk_inj ((arrayField_not_mem h).symm.trans c₁₁)).symm
  · exact fun h => (exceptOk_inj ((scalarField_get_none h).symm.trans c₁)).symm
  · exact fun h => (exceptOk_inj ((scalarField_get_none h).symm.trans c₂)).symm
  · exact fun h => (exceptOk_inj ((scalarField_get_none h).symm.trans c₃)).symm
  · exact fun h => (exceptOk_inj ((scalarField_get_none h).symm.trans c₄)).symm
  · exact fun h => (exceptOk_inj ((scalarField_get_none h).symm.trans c₅)).symm
  · exact fun h => (exceptOk_inj ((arrayField_get_none h).symm.trans c₆)).symm
  · exact fun h => (exceptOk_inj ((objField_get_none h).symm.trans c₇)).symm
  · exact fun h => (exceptOk_inj ((arrayField_get_none h).symm.trans c₈)).symm
  · exact fun h => (exceptOk_inj ((scalarField_get_none h).symm.trans c₉)).symm
  · exact fun h => (exceptOk_inj ((arrayField_get_none h).symm.trans c₁₀)).symm
  · exact fun h => (exceptOk_inj ((arrayField_get_none h).symm.trans c₁₁)).symm

/-- The completion of the C2 witness: the model volunteers `manufacturer`,
which is not requested. -/
def c2Content : String := "\x7b\"manufacturer\": \"X\"\x7d"

/-- The options of the C2 witness: only `description` requested. -/
def c2Options : EnrichmentOptions := { fields := ["description"] }

/-- The parsed data of the C2 witness. -/
def c2Data : List (String × Json) := [("manufacturer", Json.str "X")]

/-- C2 witness: for the concrete completion volunteering an unrequested
`manufacturer` and omitting the requested `description`, both attributes end
up at their empty defaults. -/
theorem field_projection_witness :
    ({} : EnrichedProduct).manufacturer = none ∧
    ({} : EnrichedProduct).description = none := by
  have h := field_projection c2Content c2Options c2Data {} [] rfl rfl
  exact ⟨h.1 (by decide), h.2.2.2.2.2.2.2.2.2.2.2.2.2.2.2.1 rfl⟩

end Enricher
